import Mathlib

/-
  Verification development for the mobileapp backend core:
  context assembly and knowledge consolidation.

  Shallow embedding of:
   - src/backend/app/api/knowledge.py        (apply_updates, lines 192-278)
   - src/backend/app/core/context_builder.py (build_context and the four layer fetches)
   - src/backend/app/db/redis_client.py      (add_message / get_messages)
   - src/backend/app/core/fact_extractor.py  (_rule_based_extract)

  Conventions of the embedding:
   - Python floats are modelled as exact rationals (the epsilon 1e-6 becomes
     the rational 1/1000000); datetimes as integers; database rows as Lean
     structures; per-domain tables as lists of rows.
   - The SQLAlchemy session layer (app/db/database.py is not part of the
     source tree; only its callers are) is modelled from the spec's
     RelationalKnowledgeStore interface: find_by(user_id, field_name)
     returns the first stored row of the domain table whose key matches,
     insert appends a row, update mutates the found row in place, and a
     single commit publishes the row mutation together with the audit row
     added to the same session.
   - External calls that can raise are modelled by an environment record
     carrying each call's outcome (Except / Bool flags), so exception paths
     of the Python code are explicit branches.
-/

namespace MobileApp

/- ===================================================================
   Part 1: knowledge consolidation
   (src/backend/app/api/knowledge.py, apply_updates, lines 192-278)
   =================================================================== -/

/-- The six recognized domains: keys of MODEL_MAP (knowledge.py lines 65-72). -/
inductive Domain
  | identity | goals | projects | finances | relationships | patterns
deriving DecidableEq, Repr

/-- MODEL_MAP.get(domain): resolve a domain string, none for an unknown domain. -/
def Domain.ofString (s : String) : Option Domain :=
  if s = "identity" then some .identity
  else if s = "goals" then some .goals
  else if s = "projects" then some .projects
  else if s = "finances" then some .finances
  else if s = "relationships" then some .relationships
  else if s = "patterns" then some .patterns
  else none

/-- The SQLAlchemy __tablename__ of each domain model (models.py lines 139-220). -/
def Domain.tableName : Domain → String
  | .identity => "knowledge_identity"
  | .goals => "knowledge_goals"
  | .projects => "knowledge_projects"
  | .finances => "knowledge_finances"
  | .relationships => "knowledge_relationships"
  | .patterns => "knowledge_patterns"

/-- A row of one of the six knowledge tables (models.py, e.g. KnowledgeIdentity).
    last_updated is Option to mirror getattr(existing, "last_updated", None)
    in the tie-break (knowledge.py line 262). -/
structure KRecord where
  user_id : String
  field_name : String
  field_value : String
  confidence : ℚ
  source : String
  last_updated : Option ℤ
deriving DecidableEq, Repr

/-- A row of the knowledge_updates audit table (models.py KnowledgeUpdate),
    as built by make_update_log (knowledge.py lines 219-229). -/
structure AuditEntry where
  user_id : String
  conversation_id : Option String
  table_name : String
  field_name : String
  old_value : Option String
  new_value : Option String
  confidence : ℚ
  source : String
deriving DecidableEq, Repr

/-- A conversations row, as used by the recency tie-break (created_at). -/
structure Conversation where
  created_at : Option ℤ
deriving DecidableEq, Repr

/-- The relational store: one row list per domain table, the audit table,
    and the conversations table keyed by id string. -/
structure KBState where
  tables : Domain → List KRecord
  audit : List AuditEntry
  conversations : String → Option Conversation

/-- A KBUpdate request item (knowledge.py lines 41-48). -/
structure KBUpdate where
  domain : String
  user_id : ℤ
  field_name : String
  field_value : String
  confidence : ℚ
  source : String
  conversation_id : Option ℤ
deriving DecidableEq, Repr

/-- One update together with its runtime circumstances: the wall clock used
    for datetime.utcnow(), whether the SELECT of the existing row succeeded
    (knowledge.py lines 208-217: a raising SELECT is swallowed and treated
    as "no existing row"), and whether session.get(Conversation, ...) in the
    tie-break succeeded (lines 259-266: a raise there is swallowed). -/
structure UpdateCtx where
  u : KBUpdate
  now : ℤ
  lookupOk : Bool
  convLookupOk : Bool
deriving DecidableEq, Repr

/-- The epsilon of the confidence comparison (1e-6, knowledge.py lines 256-258). -/
def eps : ℚ := 1 / 1000000

/-- The WHERE clause of the existing-row lookup: user_id and field_name match
    (knowledge.py lines 209-214; the row was stored with str(u.user_id)). -/
def keyMatch (u : KBUpdate) (r : KRecord) : Bool :=
  r.user_id == toString u.user_id && r.field_name == u.field_name

/-- make_update_log (knowledge.py lines 219-229). -/
def mkLog (u : KBUpdate) (d : Domain) (oldV newV : Option String) : AuditEntry :=
  { user_id := toString u.user_id
    conversation_id := u.conversation_id.map (fun c => toString c)
    table_name := d.tableName
    field_name := u.field_name
    old_value := oldV
    new_value := newV
    confidence := u.confidence
    source := u.source }

/-- Replace the list held for one domain, leaving the other tables unchanged. -/
def setTable (t : Domain → List KRecord) (d : Domain) (l : List KRecord) :
    Domain → List KRecord :=
  fun dd => if dd = d then l else t dd

/-- Mutate the first row satisfying p in place (the ORM updates the row object
    returned by scalars().first()). -/
def updFirst (p : α → Bool) (f : α → α) : List α → List α
  | [] => []
  | r :: rs => if p r then f r :: rs else r :: updFirst p f rs

/-- The in-place overwrite of an existing row (knowledge.py lines 269-273). -/
def overwriteRec (c : UpdateCtx) (r : KRecord) : KRecord :=
  { r with field_value := c.u.field_value, confidence := c.u.confidence,
           source := c.u.source, last_updated := some c.now }

/-- The freshly inserted row (knowledge.py lines 233-240). -/
def insertRec (c : UpdateCtx) : KRecord :=
  { user_id := toString c.u.user_id
    field_name := c.u.field_name
    field_value := c.u.field_value
    confidence := c.u.confidence
    source := c.u.source
    last_updated := some c.now }

/-- Python abs on the confidence difference. -/
def ratAbs (q : ℚ) : ℚ := if q < 0 then -q else q

/-- The recency tie-break (knowledge.py lines 259-266): fetch the conversation
    by str(conversation_id); update only if it exists, has a created_at, and
    that created_at is strictly later than the existing row's last_updated
    (or the row has none). Any fetch failure is swallowed: no update. -/
def tieBreakB (st : KBState) (c : UpdateCtx) (ex : KRecord) : Bool :=
  if c.convLookupOk then
    match c.u.conversation_id with
    | none => false
    | some cid =>
      match st.conversations (toString cid) with
      | none => false
      | some conv =>
        match conv.created_at with
        | none => false
        | some t =>
          match ex.last_updated with
          | none => true
          | some lu => decide (lu < t)
  else false

/-- should_update (knowledge.py lines 254-266): higher confidence wins beyond
    eps; a tie within eps consults the recency tie-break only when a
    conversation_id was supplied. -/
def shouldUpdateB (st : KBState) (c : UpdateCtx) (ex : KRecord) : Bool :=
  if ex.confidence + eps < c.u.confidence then true
  else if ratAbs (c.u.confidence - ex.confidence) ≤ eps ∧ c.u.conversation_id.isSome then
    tieBreakB st c ex
  else false

/-- State after the insert branch (knowledge.py lines 232-245): append the new
    row and the audit entry with old_value = null, committed together. -/
def insertState (st : KBState) (c : UpdateCtx) (d : Domain) : KBState :=
  { st with tables := setTable st.tables d (st.tables d ++ [insertRec c])
            audit := st.audit ++ [mkLog c.u d none (some c.u.field_value)] }

/-- State after the overwrite branch (knowledge.py lines 268-276): mutate the
    found row in place and append the audit entry carrying the prior
    field_value, committed together. -/
def overwriteState (st : KBState) (c : UpdateCtx) (d : Domain) (ex : KRecord) : KBState :=
  { st with tables := setTable st.tables d (updFirst (keyMatch c.u) (overwriteRec c) (st.tables d))
            audit := st.audit ++ [mkLog c.u d (some ex.field_value) (some c.u.field_value)] }

/-- Outcome of processing one update: a 400 HTTPException (raised, aborting
    the request), a silent discard (state unchanged, not counted), or a
    committed apply. -/
inductive Outcome
  | err (code : ℕ) (detail : String)
  | noop (st : KBState)
  | applied (st : KBState)

/-- One iteration of the loop body of apply_updates (knowledge.py lines
    197-276) on the current store state. -/
def applyOne (st : KBState) (c : UpdateCtx) : Outcome :=
  match Domain.ofString c.u.domain with
  | none => .err 400 ("unknown domain: " ++ c.u.domain)
  | some d =>
    match (if c.lookupOk then (st.tables d).find? (keyMatch c.u) else none) with
    | none => .applied (insertState st c d)
    | some ex =>
      if shouldUpdateB st c ex then .applied (overwriteState st c d ex)
      else .noop st

/-- Result of the whole endpoint: the store state, the applied counter, and
    the HTTPException (if one aborted the loop; earlier commits persist and
    the counter is then not returned to the client). -/
structure ApplyResult where
  state : KBState
  applied : ℕ
  error : Option (ℕ × String)

/-- apply_updates (knowledge.py lines 192-278): process the batch in order,
    each accepted update committed in its own transaction; an unknown domain
    raises and stops the loop. -/
def apply_updates (st : KBState) : List UpdateCtx → ApplyResult
  | [] => ⟨st, 0, none⟩
  | c :: cs =>
    match applyOne st c with
    | .err code detail => ⟨st, 0, some (code, detail)⟩
    | .noop st1 => apply_updates st1 cs
    | .applied st1 =>
      let r := apply_updates st1 cs
      ⟨r.state, r.applied + 1, r.error⟩

/- ===================================================================
   Theorems: knowledge consolidation (claims C1, C3, C4, C5, C6)
   =================================================================== -/

lemma eps_pos : (0 : ℚ) < eps := by norm_num [eps]

/-- The tie-break as a proposition: the conversation fetched by
    str(conversation_id) exists, has a created_at, and that created_at is
    strictly later than the stored row's last_updated (or the row has none). -/
def tieBreakProp (st : KBState) (c : UpdateCtx) (ex : KRecord) : Prop :=
  ∃ cid conv t, c.u.conversation_id = some cid ∧
    st.conversations (toString cid) = some conv ∧ conv.created_at = some t ∧
    (ex.last_updated = none ∨ ∃ lu, ex.last_updated = some lu ∧ lu < t)

/-- The exact condition under which an existing record is overwritten. -/
def OverwriteCond (st : KBState) (c : UpdateCtx) (ex : KRecord) : Prop :=
  ex.confidence + eps < c.u.confidence ∨
  (ratAbs (c.u.confidence - ex.confidence) ≤ eps ∧ c.convLookupOk = true ∧
   tieBreakProp st c ex)

lemma tieBreakB_eq_true_iff (st : KBState) (c : UpdateCtx) (ex : KRecord) :
    tieBreakB st c ex = true ↔ (c.convLookupOk = true ∧ tieBreakProp st c ex) := by
  unfold tieBreakB tieBreakProp
  cases hok : c.convLookupOk with
  | false => simp
  | true =>
    simp only [if_true, true_and]
    cases hid : c.u.conversation_id with
    | none => simp
    | some cid =>
      cases hconv : st.conversations (toString cid) with
      | none => simp [hconv]
      | some conv =>
        cases hca : conv.created_at with
        | none => simp [hconv, hca]
        | some t =>
          cases hlu : ex.last_updated with
          | none => simp [hconv, hca, hlu]
          | some lu => simp [hconv, hca, hlu]

lemma shouldUpdateB_eq_true_iff (st : KBState) (c : UpdateCtx) (ex : KRecord) :
    shouldUpdateB st c ex = true ↔ OverwriteCond st c ex := by
  unfold shouldUpdateB OverwriteCond
  split_ifs with h1 h2
  · simp [h1]
  · rw [tieBreakB_eq_true_iff]
    constructor
    · rintro ⟨hok, htb⟩
      exact Or.inr ⟨h2.1, hok, htb⟩
    · rintro (h | ⟨habs, hok, htb⟩)
      · exact absurd h h1
      · exact ⟨hok, htb⟩
  · constructor
    · intro h
      cases h
    · rintro (h | ⟨habs, hok, htb⟩)
      · exact absurd h h1
      · rcases htb with ⟨cid, conv, t, hcid, _⟩
        exact absurd ⟨habs, by simp [hcid]⟩ h2

/-- Claim C1: for a recognized domain and an existing record for the same
    (user_id, domain, field_name), apply_updates overwrites the stored record
    iff the incoming confidence exceeds the stored one by more than 1e-6, or
    the confidences differ by at most 1e-6, a conversation_id was supplied,
    and the successfully fetched conversation's created_at is strictly later
    than the stored last_updated (or the record has none); in every other
    case, a failed conversation fetch included, the record is left unchanged
    as a no-op that contributes nothing to the applied count. -/
theorem apply_updates_overwrite_iff (st : KBState) (c : UpdateCtx) (d : Domain) (ex : KRecord)
    (hd : Domain.ofString c.u.domain = some d)
    (hlk : c.lookupOk = true)
    (hex : (st.tables d).find? (keyMatch c.u) = some ex) :
    (applyOne st c = .applied (overwriteState st c d ex) ↔ OverwriteCond st c ex) ∧
    (¬ OverwriteCond st c ex → applyOne st c = .noop st) := by
  have happ : applyOne st c =
      if shouldUpdateB st c ex then Outcome.applied (overwriteState st c d ex)
      else Outcome.noop st := by
    unfold applyOne
    rw [hd]
    simp [hlk, hex]
  constructor
  · rw [happ]
    by_cases h : OverwriteCond st c ex
    · have hb := (shouldUpdateB_eq_true_iff st c ex).mpr h
      simp [hb, h]
    · have hb : shouldUpdateB st c ex = false := by
        cases hbb : shouldUpdateB st c ex
        · rfl
        · exact absurd ((shouldUpdateB_eq_true_iff st c ex).mp hbb) h
      simp [hb, h]
  · intro h
    have hb : shouldUpdateB st c ex = false := by
      cases hbb : shouldUpdateB st c ex
      · rfl
      · exact absurd ((shouldUpdateB_eq_true_iff st c ex).mp hbb) h
    rw [happ, hb]
    simp

/-- An existing identity record with confidence 1/2 last updated at time 50. -/
def rec0 : KRecord := ⟨"1", "name", "Simon", 1/2, "onboarding", some 50⟩

/-- A store holding rec0 and a conversation "7" created at time 100. -/
def stW : KBState :=
  { tables := fun d => if d = Domain.identity then [rec0] else []
    audit := []
    conversations := fun s => if s = "7" then some ⟨some 100⟩ else none }

/-- An equal-confidence update carrying conversation 7 (a later conversation). -/
def cW : UpdateCtx :=
  ⟨⟨"identity", 1, "name", "Simone", 1/2, "conversation", some 7⟩, 200, true, true⟩

theorem apply_updates_overwrite_iff_witness :
    applyOne stW cW = .applied (overwriteState stW cW Domain.identity rec0) :=
  (apply_updates_overwrite_iff stW cW Domain.identity rec0 rfl rfl rfl).1.mpr
    (Or.inr ⟨by norm_num [cW, rec0, ratAbs, eps], rfl,
      7, ⟨some 100⟩, 100, rfl, rfl, rfl, Or.inr ⟨50, rfl, by norm_num⟩⟩)

/-- All six tables empty. -/
def emptyTables : Domain → List KRecord := fun _ => []

/-- The empty store. -/
def st0 : KBState := ⟨emptyTables, [], fun _ => none⟩

/-- A valid identity update. -/
def ctxA : UpdateCtx :=
  ⟨⟨"identity", 1, "name", "Simon", 9/10, "onboarding", none⟩, 10, true, true⟩

/-- An update with the unrecognized domain "hobbies". -/
def ctxBad : UpdateCtx :=
  ⟨⟨"hobbies", 1, "hobby", "chess", 9/10, "onboarding", none⟩, 11, true, true⟩

/-- A second valid identity update, for a different field. -/
def ctxB : UpdateCtx :=
  ⟨⟨"identity", 1, "city", "Paris", 9/10, "onboarding", none⟩, 12, true, true⟩

/-- Claim C3 counterexample: in the batch [ctxA, ctxBad, ctxB] the unknown
    domain "hobbies" raises a 400 HTTPException, so ctxB is never processed
    (no "city" record exists afterwards), although the same batch without
    ctxBad does apply it; the claim that every other update in the batch is
    still processed to completion is false. -/
theorem apply_updates_unknown_domain_cex :
    (apply_updates st0 [ctxA, ctxBad, ctxB]).error = some (400, "unknown domain: hobbies") ∧
    ((apply_updates st0 [ctxA, ctxBad, ctxB]).state.tables Domain.identity).find?
      (keyMatch ctxB.u) = none ∧
    ((apply_updates st0 [ctxA, ctxBad, ctxB]).state.tables Domain.identity).find?
      (keyMatch ctxA.u) = some (insertRec ctxA) ∧
    (apply_updates st0 [ctxA, ctxB]).error = none ∧
    ((apply_updates st0 [ctxA, ctxB]).state.tables Domain.identity).find?
      (keyMatch ctxB.u) = some (insertRec ctxB) :=
  ⟨rfl, rfl, rfl, rfl, rfl⟩

lemma apply_updates_cons_err (st : KBState) (c : UpdateCtx) (cs : List UpdateCtx)
    (code : ℕ) (detail : String) (h : applyOne st c = .err code detail) :
    apply_updates st (c :: cs) = ⟨st, 0, some (code, detail)⟩ := by
  conv_lhs => rw [apply_updates]
  rw [h]

lemma apply_updates_cons_noop (st : KBState) (c : UpdateCtx) (cs : List UpdateCtx)
    (st1 : KBState) (h : applyOne st c = .noop st1) :
    apply_updates st (c :: cs) = apply_updates st1 cs := by
  conv_lhs => rw [apply_updates]
  rw [h]

lemma apply_updates_cons_applied (st : KBState) (c : UpdateCtx) (cs : List UpdateCtx)
    (st1 : KBState) (h : applyOne st c = .applied st1) :
    apply_updates st (c :: cs) =
      ⟨(apply_updates st1 cs).state, (apply_updates st1 cs).applied + 1,
       (apply_updates st1 cs).error⟩ := by
  conv_lhs => rw [apply_updates]
  rw [h]

lemma apply_updates_append (st : KBState) (xs ys : List UpdateCtx)
    (h : (apply_updates st xs).error = none) :
    apply_updates st (xs ++ ys) =
      ⟨(apply_updates (apply_updates st xs).state ys).state,
       (apply_updates st xs).applied +
         (apply_updates (apply_updates st xs).state ys).applied,
       (apply_updates (apply_updates st xs).state ys).error⟩ := by
  induction xs generalizing st with
  | nil => simp [apply_updates]
  | cons c cs ih =>
    rw [List.cons_append]
    cases happ : applyOne st c with
    | err code detail =>
      exfalso
      rw [apply_updates_cons_err st c cs code detail happ] at h
      simp at h
    | noop st1 =>
      rw [apply_updates_cons_noop st c cs st1 happ] at h
      rw [apply_updates_cons_noop st c (cs ++ ys) st1 happ,
          apply_updates_cons_noop st c cs st1 happ]
      exact ih st1 h
    | applied st1 =>
      rw [apply_updates_cons_applied st c cs st1 happ] at h
      have h2 : (apply_updates st1 cs).error = none := h
      rw [apply_updates_cons_applied st c (cs ++ ys) st1 happ,
          apply_updates_cons_applied st c cs st1 happ, ih st1 h2]
      simp only [ApplyResult.mk.injEq, true_and, and_true]
      omega

/-- Claim C3 (amended): an update with an unrecognized domain raises a 400
    HTTPException that aborts the batch: updates before it have already been
    committed and persist, the failing update itself contributes nothing, and
    updates after it are not processed (and no applied count is returned). -/
theorem apply_updates_unknown_domain_aborts (st : KBState) (pre post : List UpdateCtx)
    (c : UpdateCtx) (hpre : (apply_updates st pre).error = none)
    (hbad : Domain.ofString c.u.domain = none) :
    apply_updates st (pre ++ c :: post) =
      ⟨(apply_updates st pre).state, (apply_updates st pre).applied,
       some (400, "unknown domain: " ++ c.u.domain)⟩ := by
  rw [apply_updates_append st pre (c :: post) hpre]
  have he : applyOne (apply_updates st pre).state c =
      .err 400 ("unknown domain: " ++ c.u.domain) := by
    unfold applyOne
    rw [hbad]
  rw [apply_updates_cons_err _ c post 400 _ he]
  simp

theorem apply_updates_unknown_domain_aborts_witness :
    apply_updates st0 [ctxA, ctxBad, ctxB] =
      ⟨(apply_updates st0 [ctxA]).state, (apply_updates st0 [ctxA]).applied,
       some (400, "unknown domain: " ++ ctxBad.u.domain)⟩ :=
  apply_updates_unknown_domain_aborts st0 [ctxA] [ctxB] ctxBad rfl rfl

lemma keyMatch_insertRec (c : UpdateCtx) : keyMatch c.u (insertRec c) = true := by
  simp [keyMatch, insertRec]

lemma applyOne_some (st : KBState) (c : UpdateCtx) (d : Domain)
    (hd : Domain.ofString c.u.domain = some d) :
    applyOne st c =
      match (if c.lookupOk then (st.tables d).find? (keyMatch c.u) else none) with
      | none => .applied (insertState st c d)
      | some ex =>
        if shouldUpdateB st c ex then .applied (overwriteState st c d ex)
        else .noop st := by
  unfold applyOne
  rw [hd]

lemma applyOne_lookup (st : KBState) (c : UpdateCtx) (d : Domain)
    (hd : Domain.ofString c.u.domain = some d) (hlk : c.lookupOk = true) :
    applyOne st c =
      match (st.tables d).find? (keyMatch c.u) with
      | none => .applied (insertState st c d)
      | some ex =>
        if shouldUpdateB st c ex then .applied (overwriteState st c d ex)
        else .noop st := by
  rw [applyOne_some st c d hd, hlk]
  rfl

lemma applyOne_insert (st : KBState) (c : UpdateCtx) (d : Domain)
    (hd : Domain.ofString c.u.domain = some d)
    (hfind : (if c.lookupOk then (st.tables d).find? (keyMatch c.u) else none) = none) :
    applyOne st c = .applied (insertState st c d) := by
  rw [applyOne_some st c d hd, hfind]

lemma applyOne_existing (st : KBState) (c : UpdateCtx) (d : Domain) (ex : KRecord)
    (hd : Domain.ofString c.u.domain = some d)
    (hfind : (if c.lookupOk then (st.tables d).find? (keyMatch c.u) else none) = some ex) :
    applyOne st c =
      if shouldUpdateB st c ex then .applied (overwriteState st c d ex)
      else .noop st := by
  rw [applyOne_some st c d hd, hfind]

/-- Claim C4: submitting the identical update twice in a row (recognized
    domain, no conversation_id, no prior record for the key) inserts once:
    the batch result is the single-insert state with applied = 1, exactly one
    record matches the key afterwards, and exactly one audit entry was
    appended; the repeat is a no-op. -/
theorem apply_updates_idempotent (st : KBState) (c c2 : UpdateCtx) (d : Domain)
    (hd : Domain.ofString c.u.domain = some d)
    (hu : c2.u = c.u)
    (hcid : c.u.conversation_id = none)
    (hlk : c.lookupOk = true) (hlk2 : c2.lookupOk = true)
    (hnone : (st.tables d).find? (keyMatch c.u) = none) :
    apply_updates st [c, c2] = ⟨insertState st c d, 1, none⟩ ∧
    ((insertState st c d).tables d).countP (keyMatch c.u) = 1 ∧
    (insertState st c d).audit = st.audit ++ [mkLog c.u d none (some c.u.field_value)] := by
  have step1 : applyOne st c = .applied (insertState st c d) := by
    unfold applyOne
    rw [hd]
    simp [hlk, hnone]
  have find1 : ((insertState st c d).tables d).find? (keyMatch c.u) = some (insertRec c) := by
    simp [insertState, setTable, List.find?_append, hnone, keyMatch_insertRec]
  have hsu : shouldUpdateB (insertState st c d) c2 (insertRec c) = false := by
    unfold shouldUpdateB
    rw [hu]
    have h1 : ¬ ((insertRec c).confidence + eps < c.u.confidence) := by
      simp only [insertRec]
      have := eps_pos
      intro hcon
      linarith
    rw [if_neg h1, if_neg]
    rintro ⟨-, hsome⟩
    rw [hcid] at hsome
    simp at hsome
  have step2 : applyOne (insertState st c d) c2 = .noop (insertState st c d) := by
    have hd2 : Domain.ofString c2.u.domain = some d := by rw [hu]; exact hd
    rw [applyOne_lookup (insertState st c d) c2 d hd2 hlk2]
    rw [hu, find1]
    simp [hsu]
  refine ⟨?_, ?_, rfl⟩
  · rw [apply_updates_cons_applied st c [c2] (insertState st c d) step1,
        apply_updates_cons_noop (insertState st c d) c2 [] (insertState st c d) step2]
    rfl
  · have hz : (st.tables d).countP (keyMatch c.u) = 0 := by
      rw [List.countP_eq_zero]
      exact fun r hr => by simpa using List.find?_eq_none.mp hnone r hr
    simp [insertState, setTable, List.countP_append, hz, keyMatch_insertRec]

/-- A second submission of the ctxA update (identical payload, later clock). -/
def ctxA2 : UpdateCtx :=
  ⟨⟨"identity", 1, "name", "Simon", 9/10, "onboarding", none⟩, 20, true, true⟩

theorem apply_updates_idempotent_witness :
    apply_updates st0 [ctxA, ctxA2] = ⟨insertState st0 ctxA Domain.identity, 1, none⟩ ∧
    ((insertState st0 ctxA Domain.identity).tables Domain.identity).countP
      (keyMatch ctxA.u) = 1 ∧
    (insertState st0 ctxA Domain.identity).audit =
      st0.audit ++ [mkLog ctxA.u Domain.identity none (some ctxA.u.field_value)] :=
  apply_updates_idempotent st0 ctxA ctxA2 Domain.identity rfl rfl rfl rfl rfl rfl

/-- The existing-record lookup performed for an update (none when the domain
    is unknown, the SELECT raised, or no row matches). -/
def existingOf (st : KBState) (c : UpdateCtx) : Option KRecord :=
  match Domain.ofString c.u.domain with
  | none => none
  | some d => if c.lookupOk then (st.tables d).find? (keyMatch c.u) else none

/-- Claim C5: every accepted apply commits exactly one new audit entry
    together with the record change, in one step: on insert it carries
    old_value = null and new_value = field_value, on overwrite the prior
    field_value as old_value; a discarded update leaves the state untouched
    and a rejected (unknown-domain) update leaves state and audit unchanged. -/
theorem apply_updates_audit_atomic (st : KBState) (c : UpdateCtx) :
    (∀ st1, applyOne st c = .applied st1 →
      ∃ d, Domain.ofString c.u.domain = some d ∧
        ((existingOf st c = none ∧ st1 = insertState st c d ∧
          st1.audit = st.audit ++ [mkLog c.u d none (some c.u.field_value)]) ∨
         (∃ ex, existingOf st c = some ex ∧ st1 = overwriteState st c d ex ∧
          st1.audit = st.audit ++ [mkLog c.u d (some ex.field_value) (some c.u.field_value)]))) ∧
    (∀ st1, applyOne st c = .noop st1 → st1 = st) ∧
    (∀ code detail, applyOne st c = .err code detail →
      apply_updates st [c] = ⟨st, 0, some (code, detail)⟩) := by
  refine ⟨?_, ?_, ?_⟩
  · intro st1 h
    cases hdo : Domain.ofString c.u.domain with
    | none =>
      unfold applyOne at h
      rw [hdo] at h
      simp at h
    | some d =>
      cases hfind : (if c.lookupOk then (st.tables d).find? (keyMatch c.u) else none) with
      | none =>
        rw [applyOne_insert st c d hdo hfind] at h
        simp only [Outcome.applied.injEq] at h
        refine ⟨d, rfl, Or.inl ⟨?_, h.symm, by rw [← h]; rfl⟩⟩
        unfold existingOf
        rw [hdo]
        exact hfind
      | some ex =>
        rw [applyOne_existing st c d ex hdo hfind] at h
        by_cases hsu : shouldUpdateB st c ex = true
        · rw [if_pos hsu] at h
          simp only [Outcome.applied.injEq] at h
          refine ⟨d, rfl, Or.inr ⟨ex, ?_, h.symm, by rw [← h]; rfl⟩⟩
          unfold existingOf
          rw [hdo]
          exact hfind
        · rw [if_neg hsu] at h
          simp at h
  · intro st1 h
    cases hdo : Domain.ofString c.u.domain with
    | none =>
      unfold applyOne at h
      rw [hdo] at h
      simp at h
    | some d =>
      cases hfind : (if c.lookupOk then (st.tables d).find? (keyMatch c.u) else none) with
      | none =>
        rw [applyOne_insert st c d hdo hfind] at h
        simp at h
      | some ex =>
        rw [applyOne_existing st c d ex hdo hfind] at h
        by_cases hsu : shouldUpdateB st c ex = true
        · rw [if_pos hsu] at h
          simp at h
        · rw [if_neg hsu] at h
          simp only [Outcome.noop.injEq] at h
          exact h.symm
  · intro code detail h
    exact apply_updates_cons_err st c [] code detail h

theorem apply_updates_audit_atomic_witness :
    ∃ d, Domain.ofString ctxA.u.domain = some d ∧
      ((existingOf st0 ctxA = none ∧ insertState st0 ctxA Domain.identity = insertState st0 ctxA d ∧
        (insertState st0 ctxA Domain.identity).audit =
          st0.audit ++ [mkLog ctxA.u d none (some ctxA.u.field_value)]) ∨
       (∃ ex, existingOf st0 ctxA = some ex ∧
        insertState st0 ctxA Domain.identity = overwriteState st0 ctxA d ex ∧
        (insertState st0 ctxA Domain.identity).audit =
          st0.audit ++ [mkLog ctxA.u d (some ex.field_value) (some ctxA.u.field_value)])) :=
  (apply_updates_audit_atomic st0 ctxA).1 (insertState st0 ctxA Domain.identity) rfl

/-- The per-field key of a knowledge row. -/
def goodKey (r : KRecord) : String × String := (r.user_id, r.field_name)

/-- A domain table holds at most one row per (user_id, field_name). -/
def UniqTable (l : List KRecord) : Prop := (l.map goodKey).Nodup

/-- Every domain table of the store is key-unique. -/
def Uniq (st : KBState) : Prop := ∀ d, UniqTable (st.tables d)

lemma keyMatch_iff_goodKey (u : KBUpdate) (r : KRecord) :
    keyMatch u r = true ↔ goodKey r = (toString u.user_id, u.field_name) := by
  simp [keyMatch, goodKey, Prod.ext_iff]

lemma updFirst_map_goodKey (p : KRecord → Bool) (c : UpdateCtx) (l : List KRecord) :
    (updFirst p (overwriteRec c) l).map goodKey = l.map goodKey := by
  induction l with
  | nil => rfl
  | cons r rs ih =>
    unfold updFirst
    by_cases hp : p r = true
    · rw [if_pos hp]
      simp only [List.map_cons, ih]
      rfl
    · rw [if_neg hp]
      simp only [List.map_cons, ih]

lemma insertState_tables_self (st : KBState) (c : UpdateCtx) (d : Domain) :
    (insertState st c d).tables d = st.tables d ++ [insertRec c] := by
  unfold insertState setTable
  simp

lemma insertState_tables_other (st : KBState) (c : UpdateCtx) (d d2 : Domain)
    (h : d2 ≠ d) : (insertState st c d).tables d2 = st.tables d2 := by
  unfold insertState setTable
  simp [h]

lemma overwriteState_tables_self (st : KBState) (c : UpdateCtx) (d : Domain) (ex : KRecord) :
    (overwriteState st c d ex).tables d =
      updFirst (keyMatch c.u) (overwriteRec c) (st.tables d) := by
  unfold overwriteState setTable
  simp

lemma overwriteState_tables_other (st : KBState) (c : UpdateCtx) (d d2 : Domain) (ex : KRecord)
    (h : d2 ≠ d) : (overwriteState st c d ex).tables d2 = st.tables d2 := by
  unfold overwriteState setTable
  simp [h]

lemma applyOne_step_uniq (st : KBState) (c : UpdateCtx) (st1 : KBState)
    (hlk : c.lookupOk = true)
    (h : applyOne st c = .noop st1 ∨ applyOne st c = .applied st1)
    (hU : Uniq st) :
    Uniq st1 ∧ ∀ d k, k ∈ (st.tables d).map goodKey → k ∈ (st1.tables d).map goodKey := by
  cases hdo : Domain.ofString c.u.domain with
  | none =>
    rcases h with h | h <;> (unfold applyOne at h; rw [hdo] at h; simp at h)
  | some d =>
    have hif : (if c.lookupOk then (st.tables d).find? (keyMatch c.u) else none) =
        (st.tables d).find? (keyMatch c.u) := by
      rw [hlk]
      rfl
    cases hfind : (st.tables d).find? (keyMatch c.u) with
    | none =>
      have happ := applyOne_insert st c d hdo (by rw [hif, hfind])
      rcases h with h | h
      · rw [happ] at h
        simp at h
      · rw [happ] at h
        simp only [Outcome.applied.injEq] at h
        subst h
        constructor
        · intro d2
          unfold UniqTable
          by_cases hdd : d2 = d
          · subst hdd
            rw [insertState_tables_self, List.map_append, List.nodup_append]
            refine ⟨hU d2, List.nodup_singleton _, ?_⟩
            intro k hk1 hk2
            simp only [List.map_cons, List.map_nil, List.mem_singleton] at hk2
            rcases List.mem_map.mp hk1 with ⟨r, hr, hkr⟩
            have hkm : keyMatch c.u r = true := by
              rw [keyMatch_iff_goodKey, hkr, hk2]
              rfl
            exact List.find?_eq_none.mp hfind r hr hkm
          · rw [insertState_tables_other st c d d2 hdd]
            exact hU d2
        · intro d2 k hk
          by_cases hdd : d2 = d
          · subst hdd
            rw [insertState_tables_self, List.map_append]
            exact List.mem_append_left _ hk
          · rw [insertState_tables_other st c d d2 hdd]
            exact hk
    | some ex =>
      have happ := applyOne_existing st c d ex hdo (by rw [hif, hfind])
      by_cases hsu : shouldUpdateB st c ex = true
      · rw [if_pos hsu] at happ
        rcases h with h | h
        · rw [happ] at h
          simp at h
        · rw [happ] at h
          simp only [Outcome.applied.injEq] at h
          subst h
          constructor
          · intro d2
            unfold UniqTable
            by_cases hdd : d2 = d
            · subst hdd
              rw [overwriteState_tables_self, updFirst_map_goodKey]
              exact hU d2
            · rw [overwriteState_tables_other st c d d2 ex hdd]
              exact hU d2
          · intro d2 k hk
            by_cases hdd : d2 = d
            · subst hdd
              rw [overwriteState_tables_self, updFirst_map_goodKey]
              exact hk
            · rw [overwriteState_tables_other st c d d2 ex hdd]
              exact hk
      · rw [if_neg hsu] at happ
        rcases h with h | h
        · rw [happ] at h
          simp only [Outcome.noop.injEq] at h
          subst h
          exact ⟨hU, fun d2 k hk => hk⟩
        · rw [happ] at h
          simp at h

lemma apply_updates_preserves_uniq (st : KBState) (cs : List UpdateCtx)
    (hlk : ∀ c ∈ cs, c.lookupOk = true) (hU : Uniq st) :
    Uniq (apply_updates st cs).state ∧
    ∀ d k, k ∈ (st.tables d).map goodKey →
      k ∈ ((apply_updates st cs).state.tables d).map goodKey := by
  induction cs generalizing st with
  | nil => exact ⟨hU, fun d k hk => hk⟩
  | cons c cs ih =>
    have hlkc : c.lookupOk = true := hlk c (List.mem_cons_self c cs)
    have hlkcs : ∀ c2 ∈ cs, c2.lookupOk = true :=
      fun c2 h2 => hlk c2 (List.mem_cons_of_mem c h2)
    cases happ : applyOne st c with
    | err code detail =>
      rw [apply_updates_cons_err st c cs code detail happ]
      exact ⟨hU, fun d k hk => hk⟩
    | noop st1 =>
      rw [apply_updates_cons_noop st c cs st1 happ]
      have hstep := applyOne_step_uniq st c st1 hlkc (Or.inl happ) hU
      have hrest := ih st1 hlkcs hstep.1
      exact ⟨hrest.1, fun d k hk => hrest.2 d k (hstep.2 d k hk)⟩
    | applied st1 =>
      rw [apply_updates_cons_applied st c cs st1 happ]
      have hstep := applyOne_step_uniq st c st1 hlkc (Or.inr happ) hU
      have hrest := ih st1 hlkcs hstep.1
      exact ⟨hrest.1, fun d k hk => hrest.2 d k (hstep.2 d k hk)⟩

/-- Claim C6: over any sequence of consolidation batches whose lookups
    succeed, the store keeps at most one record per (user_id, domain,
    field_name) — inserts happen only when the lookup found no record,
    overwrites mutate in place — and no record key is ever deleted. -/
theorem apply_updates_key_uniqueness (st : KBState) (bs : List (List UpdateCtx))
    (hlk : ∀ b ∈ bs, ∀ c ∈ b, c.lookupOk = true) (hU : Uniq st) :
    Uniq (bs.foldl (fun s b => (apply_updates s b).state) st) ∧
    ∀ d k, k ∈ (st.tables d).map goodKey →
      k ∈ ((bs.foldl (fun s b => (apply_updates s b).state) st).tables d).map goodKey := by
  induction bs generalizing st with
  | nil => exact ⟨hU, fun d k hk => hk⟩
  | cons b bs ih =>
    simp only [List.foldl_cons]
    have h1 := apply_updates_preserves_uniq st b (hlk b (List.mem_cons_self b bs)) hU
    have h2 := ih ((apply_updates st b).state)
      (fun b2 hb2 => hlk b2 (List.mem_cons_of_mem b hb2)) h1.1
    exact ⟨h2.1, fun d k hk => h2.2 d k (h1.2 d k hk)⟩

theorem apply_updates_key_uniqueness_witness :
    Uniq ([[ctxA, ctxB], [ctxA2]].foldl (fun s b => (apply_updates s b).state) st0) :=
  (apply_updates_key_uniqueness st0 [[ctxA, ctxB], [ctxA2]]
    (by
      intro b hb c hc
      simp only [List.mem_cons, List.not_mem_nil, or_false] at hb
      rcases hb with hb | hb <;> subst hb <;>
        simp only [List.mem_cons, List.not_mem_nil, or_false] at hc <;>
        first
          | (rcases hc with hc | hc <;> subst hc <;> rfl)
          | (subst hc; rfl))
    (fun d => by
      show ((st0.tables d).map goodKey).Nodup
      simp [st0, emptyTables])).1

/- ===================================================================
   Part 2: context builder
   (src/backend/app/core/context_builder.py) and the Redis message list
   (src/backend/app/db/redis_client.py)
   =================================================================== -/

/-- An opaque identifier standing for a raised Python exception object. -/
abbrev Exc := ℕ

/-- The users row fields read by _fetch_character (context_builder.py 36-47). -/
structure UserRow where
  id : String
  full_name : String
  email : String
  trust_level : Option String
deriving DecidableEq, Repr

/-- The profile dict built by _fetch_character. -/
structure CharDict where
  user_id : String
  full_name : String
  email : String
  trust_level : Option String
deriving DecidableEq, Repr

/-- Outcome of session.get(User, user_id) in _fetch_character. -/
structure CharEnv where
  sessionGet : Except Exc (Option UserRow)

/-- The character layer (context_builder.py lines 36-47). This function has
    no try/except of its own: a raising session.get propagates out of it.
    The value none models the empty dict returned when the user is absent. -/
def fetch_character (env : CharEnv) : Except Exc (Option CharDict) :=
  match env.sessionGet with
  | .error e => .error e
  | .ok none => .ok none
  | .ok (some u) => .ok (some ⟨u.id, u.full_name, u.email, u.trust_level⟩)

/-- RedisClient.add_message (redis_client.py lines 75-80): lpush the message
    then ltrim to indices 0..19, keeping the 20 most recent, newest first. -/
def add_message (m : α) (l : List α) : List α := (m :: l).take 20

/-- RedisClient.get_messages (redis_client.py lines 82-86): lrange 0..limit-1. -/
def get_messages (limit : ℕ) (l : List α) : List α := l.take limit

/-- The working-memory dict {messages, state} (context_builder.py 50-61). -/
structure WMDict where
  messages : List String
  state : Option String
deriving DecidableEq, Repr

/-- Outcomes of the two Redis calls made by _fetch_working_memory. -/
structure WMEnv where
  getMessages : Except Exc (List String)
  getUserState : Except Exc (Option String)

/-- The working-memory layer (context_builder.py lines 50-61): any raise in
    either Redis call is caught and mapped to {messages: [], state: null}. -/
def fetch_working_memory (env : WMEnv) : WMDict :=
  match env.getMessages with
  | .error _ => ⟨[], none⟩
  | .ok ms =>
    match env.getUserState with
    | .error _ => ⟨[], none⟩
    | .ok stv => ⟨ms, stv⟩

/-- The stable descending insertion used to model ORDER BY confidence DESC
    (tie order among equal confidences is unspecified by SQL; the stable
    order is one allowed outcome). -/
def sortInsDesc (keyf : α → ℚ) (a : α) : List α → List α
  | [] => [a]
  | b :: bs => if keyf b < keyf a then a :: b :: bs else b :: sortInsDesc keyf a bs

/-- Stable descending sort by a rational key. -/
def sortDesc (keyf : α → ℚ) : List α → List α
  | [] => []
  | a :: as => sortInsDesc keyf a (sortDesc keyf as)

/-- q_top (context_builder.py lines 75-78): SELECT ... WHERE user_id = uid
    ORDER BY confidence DESC LIMIT limit. -/
def q_top (rows : List KRecord) (uid : String) (limit : ℕ) : List KRecord :=
  (sortDesc (fun r => r.confidence) (rows.filter (fun r => r.user_id == uid))).take limit

/-- Rounding of Python's f"{conf:.2f}": two decimals, half to even. (The
    source rounds the binary double; exact rational rounding is the
    abstraction used throughout this embedding.) -/
def round2 (q : ℚ) : ℤ :=
  let fl := Rat.floor (q * 100)
  if q * 100 - fl < 1/2 then fl
  else if 1/2 < q * 100 - fl then fl + 1
  else if fl % 2 = 0 then fl else fl + 1

/-- Render a confidence as Python's f"{conf:.2f}". -/
def fmtConf (q : ℚ) : String :=
  let n := round2 q
  let na := n.natAbs
  let fracStr := if na % 100 < 10 then "0" ++ toString (na % 100) else toString (na % 100)
  (if n < 0 then "-" else "") ++ toString (na / 100) ++ "." ++ fracStr

/-- One row of fmt_list (context_builder.py lines 93-104): rows with a falsy
    field_name or field_value are skipped; confidence (a non-null column) is
    rendered with two decimals. -/
def fmt_row (r : KRecord) : Option String :=
  if r.field_name ≠ "" ∧ r.field_value ≠ "" then
    some (r.field_name ++ ": " ++ r.field_value ++ " (" ++ fmtConf r.confidence ++ ")")
  else none

/-- fmt_list (context_builder.py lines 93-104). -/
def fmt_list (rows : List KRecord) : List String := rows.filterMap fmt_row

/-- The per-domain heading used in the summary (context_builder.py 106-124). -/
def Domain.label : Domain → String
  | .identity => "Identity"
  | .goals => "Goals"
  | .projects => "Projects"
  | .finances => "Finances"
  | .relationships => "Relationships"
  | .patterns => "Patterns"

/-- One domain's summary segment (context_builder.py lines 106-124): a domain
    with no formatted rows contributes no segment; otherwise the label plus
    the first five formatted "field: value (confidence)" parts joined by
    "; ". -/
def domainSegment (d : Domain) (rows : List KRecord) : Option String :=
  let parts := fmt_list rows
  if parts = [] then none
  else some (d.label ++ ": " ++ String.intercalate "; " (parts.take 5))

/-- The six domains in the order queried (context_builder.py lines 80-91). -/
def allDomains : List Domain :=
  [.identity, .goals, .projects, .finances, .relationships, .patterns]

/-- Environment of _fetch_knowledge_summary: the cached kb_summary value
    (none = missing), whether opening the session raised, the store contents
    per domain, and which per-domain queries raised (gather with
    return_exceptions=True maps a raised query to an empty row list, line
    91). The cache write-back failure is swallowed (lines 129-132) and does
    not change the result. -/
structure KSEnv where
  cacheGet : Except Exc (Option String)
  sessionOpen : Except Exc Unit
  store : Domain → List KRecord
  queryFails : Domain → Bool

/-- The summary string computed on a cache miss (context_builder.py 80-126):
    top-10-by-confidence rows of each domain for the user, formatted and
    joined with " | ", domains with no qualifying rows skipped. -/
def buildSummary (env : KSEnv) (uid : String) : String :=
  String.intercalate " | " (allDomains.filterMap (fun d =>
    domainSegment d (if env.queryFails d then [] else q_top (env.store d) uid 10)))

/-- Result of the knowledge-summary layer: the summary string returned (as
    the dict {"summary": s}), the attempted cache write (value, TTL seconds),
    and whether the relational store was queried. -/
structure KSResult where
  summary : String
  cacheWrite : Option (String × ℕ)
  queriedStore : Bool
deriving DecidableEq, Repr

/-- The knowledge-summary layer (context_builder.py lines 64-137): return a
    truthy cached value verbatim without touching the store; otherwise
    compute the summary from the store and write it back with a 1-hour TTL;
    any raise caught by the outer try maps to {"summary": ""}. -/
def fetch_knowledge_summary (env : KSEnv) (uid : String) : KSResult :=
  match env.cacheGet with
  | .error _ => ⟨"", none, false⟩
  | .ok (some s) =>
    if s ≠ "" then ⟨s, none, false⟩
    else
      match env.sessionOpen with
      | .error _ => ⟨"", none, false⟩
      | .ok _ => ⟨buildSummary env uid, some (buildSummary env uid, 3600), true⟩
  | .ok none =>
    match env.sessionOpen with
    | .error _ => ⟨"", none, false⟩
    | .ok _ => ⟨buildSummary env uid, some (buildSummary env uid, 3600), true⟩

/-- A Pinecone match as returned by search_memories (pinecone_client.py). -/
structure Hit where
  id : String
  score : ℚ
  metadata : String
deriving DecidableEq, Repr

/-- The similarity-search call actually issued: its top_k and the namespace
    argument it passes (search_memories defaults namespace to "default";
    _fetch_episodic passes none, pinecone_client.py lines 84-110). -/
structure SearchCall where
  topK : ℕ
  searchNamespace : String
deriving DecidableEq, Repr

/-- Environment of _fetch_episodic: whether Pinecone is configured, the
    OpenAI key, the outcome of the embedding HTTP call, and the outcome of
    the Pinecone query. -/
structure EpisodicEnv where
  pineconeConfigured : Bool
  openaiKey : Option String
  embedHttp : Except Exc (Option (List ℚ))
  searchRes : Except Exc (List Hit)

/-- Result of the episodic layer plus its observable effects: whether the
    embedding provider was invoked and which search call (if any) was made. -/
structure EpisodicResult where
  hits : List Hit
  embedCalled : Bool
  searchCall : Option SearchCall
deriving DecidableEq, Repr

/-- _embed_text (context_builder.py lines 140-158): None without an OpenAI
    key; a raising HTTP call is caught and returns None. -/
def embed_text (env : EpisodicEnv) : Option (List ℚ) :=
  match env.openaiKey with
  | none => none
  | some _ =>
    match env.embedHttp with
    | .error _ => none
    | .ok v => v

/-- _fetch_episodic (context_builder.py lines 161-178): short-circuit to []
    without calling the embedder when Pinecone is unconfigured or the query
    is absent/empty; a falsy embedding gives []; otherwise search_memories
    is called with top_k and the default namespace "default" (the user id is
    not passed), and a raising search is caught to []. -/
def fetch_episodic (env : EpisodicEnv) (uid : String) (query : Option String)
    (topK : ℕ) : EpisodicResult :=
  if env.pineconeConfigured = false ∨ query = none ∨ query = some "" then
    ⟨[], false, none⟩
  else
    match embed_text env with
    | none => ⟨[], true, none⟩
    | some [] => ⟨[], true, none⟩
    | some (_ :: _) =>
      match env.searchRes with
      | .error _ => ⟨[], true, some ⟨topK, "default"⟩⟩
      | .ok hits => ⟨hits, true, some ⟨topK, "default"⟩⟩

/-- The character field of the assembled bundle: either a dict (possibly
    empty, modelled none) or the exception object that the gather returned
    (an exception object is truthy, so `character or {}` keeps it). -/
inductive CharField
  | val (d : Option CharDict)
  | exc (e : Exc)
deriving DecidableEq, Repr

/-- The dict {"summary": s} returned by the knowledge-summary layer; having
    a key, it is truthy even when s = "". -/
structure KSDict where
  summary : String
deriving DecidableEq, Repr

/-- The assembled four-layer bundle (context_builder.py lines 181-213). -/
structure ContextBundle where
  character : CharField
  knowledge_summary : KSDict
  working_memory : WMDict
  episodic : List Hit
deriving DecidableEq, Repr

/-- The environments of the four concurrent layer fetches. -/
structure BuildEnv where
  char : CharEnv
  ks : KSEnv
  wm : WMEnv
  ep : EpisodicEnv

/-- build_context (context_builder.py lines 181-213): gather the four layer
    tasks with return_exceptions=True, then apply the `or default`
    fallbacks. A character-layer exception arrives as a value and, being
    truthy, survives `character or {}`; the knowledge-summary dict and the
    two-key working-memory dict are always truthy; `episodic or []` is the
    identity on lists. The function itself is total: it never raises. -/
def build_context (env : BuildEnv) (uid : String) (query : Option String) :
    ContextBundle :=
  { character :=
      match fetch_character env.char with
      | .error e => CharField.exc e
      | .ok d => CharField.val d
    knowledge_summary := ⟨(fetch_knowledge_summary env.ks uid).summary⟩
    working_memory := fetch_working_memory env.wm
    episodic := (fetch_episodic env.ep uid query 5).hits }

/- ===================================================================
   Theorems: context builder (claims C2, C7, C8, C10)
   =================================================================== -/

/-- A character environment whose session.get raises exception 7. -/
def charEnvErr : CharEnv := ⟨.error 7⟩

/-- A knowledge-summary environment with an empty cache and empty store. -/
def ksEnvOk : KSEnv := ⟨.ok none, .ok (), fun _ => [], fun _ => false⟩

/-- A healthy working-memory environment with no stored data. -/
def wmEnvOk : WMEnv := ⟨.ok [], .ok none⟩

/-- An episodic environment with Pinecone unconfigured. -/
def epEnvOff : EpisodicEnv := ⟨false, none, .ok none, .ok []⟩

/-- A build environment whose character fetch raises. -/
def envCex : BuildEnv := ⟨charEnvErr, ksEnvOk, wmEnvOk, epEnvOff⟩

/-- Claim C2 counterexample: when the character fetch raises, build_context
    does NOT replace the exception with the empty dict: _fetch_character has
    no internal try/except, gather(return_exceptions=True) returns the
    exception object, and `character or {}` keeps it because an exception
    object is truthy — so the character field holds the exception object,
    not {}. -/
theorem build_context_character_exception_cex :
    (build_context envCex "1" none).character = CharField.exc 7 ∧
    (build_context envCex "1" none).character ≠ CharField.val none :=
  ⟨rfl, by decide⟩

/-- Claim C2 (amended): build_context is total (never raises) and always
    returns all four fields; the knowledge-summary, working-memory and
    episodic layers each depend only on their own environment and degrade
    independently — to {"summary": ""}, {messages: [], state: null} and []
    respectively — when their own fetch fails; but a character-layer
    exception is not caught and not replaced by {}: the exception object
    itself is stored in the character field. -/
theorem build_context_layer_defaults (env : BuildEnv) (uid : String)
    (query : Option String) :
    (build_context env uid query).knowledge_summary =
      ⟨(fetch_knowledge_summary env.ks uid).summary⟩ ∧
    (build_context env uid query).working_memory = fetch_working_memory env.wm ∧
    (build_context env uid query).episodic = (fetch_episodic env.ep uid query 5).hits ∧
    (∀ e, env.char.sessionGet = .error e →
      (build_context env uid query).character = CharField.exc e) ∧
    (∀ e, env.ks.cacheGet = .error e →
      (build_context env uid query).knowledge_summary = ⟨""⟩) ∧
    (∀ e, env.wm.getMessages = .error e →
      (build_context env uid query).working_memory = ⟨[], none⟩) ∧
    (∀ e, env.wm.getUserState = .error e →
      (build_context env uid query).working_memory = ⟨[], none⟩) ∧
    (∀ e, env.ep.searchRes = .error e →
      (build_context env uid query).episodic = []) := by
  refine ⟨rfl, rfl, rfl, ?_, ?_, ?_, ?_, ?_⟩
  · intro e he
    have hc : fetch_character env.char = .error e := by
      unfold fetch_character
      rw [he]
    show (match fetch_character env.char with
          | .error e => CharField.exc e
          | .ok d => CharField.val d) = CharField.exc e
    rw [hc]
  · intro e he
    have hk : fetch_knowledge_summary env.ks uid = ⟨"", none, false⟩ := by
      unfold fetch_knowledge_summary
      rw [he]
    show KSDict.mk (fetch_knowledge_summary env.ks uid).summary = ⟨""⟩
    rw [hk]
  · intro e he
    have hw : fetch_working_memory env.wm = ⟨[], none⟩ := by
      unfold fetch_working_memory
      rw [he]
    show fetch_working_memory env.wm = ⟨[], none⟩
    exact hw
  · intro e he
    have hw : fetch_working_memory env.wm = ⟨[], none⟩ := by
      unfold fetch_working_memory
      cases hm : env.wm.getMessages with
      | error e2 => rfl
      | ok ms => rw [he]
    show fetch_working_memory env.wm = ⟨[], none⟩
    exact hw
  · intro e he
    show (fetch_episodic env.ep uid query 5).hits = []
    unfold fetch_episodic
    by_cases hs : env.ep.pineconeConfigured = false ∨ query = none ∨ query = some ""
    · rw [if_pos hs]
    · rw [if_neg hs]
      cases hemb : embed_text env.ep with
      | none => rfl
      | some v =>
        cases v with
        | nil => rfl
        | cons x xs => rw [he]

/-- A build environment in which all four layers fail. -/
def envAllErr : BuildEnv :=
  ⟨⟨.error 1⟩, ⟨.error 2, .ok (), fun _ => [], fun _ => false⟩,
   ⟨.error 3, .error 4⟩, ⟨true, some "k", .ok (some [1]), .error 5⟩⟩

theorem build_context_layer_defaults_witness :
    (build_context envAllErr "1" (some "q")).character = CharField.exc 1 ∧
    (build_context envAllErr "1" (some "q")).knowledge_summary = ⟨""⟩ ∧
    (build_context envAllErr "1" (some "q")).working_memory = ⟨[], none⟩ ∧
    (build_context envAllErr "1" (some "q")).episodic = [] := by
  have h := build_context_layer_defaults envAllErr "1" (some "q")
  exact ⟨h.2.2.2.1 1 rfl, h.2.2.2.2.1 2 rfl, h.2.2.2.2.2.1 3 rfl,
         h.2.2.2.2.2.2.2 5 rfl⟩

/-- The claim's predicted segment for one domain, following the claim's
    words rather than the source: the "field: value (confidence)" parts of
    ALL the (up to 10) queried records joined by "; ", with no domain-label
    prefix; a domain with no qualifying records contributes no segment. A
    second definition kept for comparison with the source's domainSegment. -/
def specDomainSegment (rows : List KRecord) : Option String :=
  if fmt_list rows = [] then none
  else some (String.intercalate "; " (fmt_list rows))

/-- The claim's predicted cache-miss summary, following the claim's words:
    the specDomainSegment of each domain's top-10 query, joined by " | ".
    Compared with the source's buildSummary. -/
def specSummary (env : KSEnv) (uid : String) : String :=
  String.intercalate " | " (allDomains.filterMap (fun d =>
    specDomainSegment (if env.queryFails d then [] else q_top (env.store d) uid 10)))

/-- One qualifying identity row for user "1". -/
def recC7 : KRecord := ⟨"1", "name", "Simon", 1, "onboarding", none⟩

/-- A knowledge-summary environment with an empty cache and one identity
    row, driving the cache-miss path. -/
def ksEnvC7 : KSEnv :=
  ⟨.ok none, .ok (), fun d => if d = Domain.identity then [recC7] else [],
   fun _ => false⟩

/-- Six qualifying identity rows (more than the five the code formats). -/
def rowsC7 : List KRecord :=
  [⟨"1", "f1", "v1", 1, "s", none⟩, ⟨"1", "f2", "v2", 1, "s", none⟩,
   ⟨"1", "f3", "v3", 1, "s", none⟩, ⟨"1", "f4", "v4", 1, "s", none⟩,
   ⟨"1", "f5", "v5", 1, "s", none⟩, ⟨"1", "f6", "v6", 1, "s", none⟩]

/-- Claim C7 counterexample: the summary the code returns on a cache miss is
    not the string the claim describes. With a single identity row the code
    returns "Identity: name: Simon (1.00)" — every segment carries a domain
    label prefix (context_builder.py lines 107-124) — while the claim's
    plain "field: value (confidence)" format predicts "name: Simon (1.00)";
    the two strings differ. Moreover the code formats only the first five of
    the up-to-10 queried rows of a domain: with six qualifying rows,
    fmt_list yields six parts but the segment keeps five. -/
theorem fetch_knowledge_summary_format_cex :
    (fetch_knowledge_summary ksEnvC7 "1").summary =
      "Identity: " ++ ("name: Simon (" ++ fmtConf 1 ++ ")") ∧
    specSummary ksEnvC7 "1" = "name: Simon (" ++ fmtConf 1 ++ ")" ∧
    (fetch_knowledge_summary ksEnvC7 "1").summary ≠ specSummary ksEnvC7 "1" ∧
    (fmt_list rowsC7).length = 6 ∧
    ((fmt_list rowsC7).take 5).length = 5 := by
  have h1 : (fetch_knowledge_summary ksEnvC7 "1").summary =
      "Identity: " ++ ("name: Simon (" ++ fmtConf 1 ++ ")") := rfl
  have h2 : specSummary ksEnvC7 "1" = "name: Simon (" ++ fmtConf 1 ++ ")" := rfl
  refine ⟨h1, h2, ?_, rfl, rfl⟩
  rw [h1, h2]
  intro heq
  have hlen := congrArg String.length heq
  rw [String.length_append] at hlen
  have h10 : ("Identity: ").length = 10 := rfl
  rw [h10] at hlen
  omega

/-- Claim C7 (amended): knowledge-summary resolution is two-tier. A
    non-empty cached summary is returned verbatim, with no store query and
    no cache write; on a cache miss (absent or empty cached value) the
    summary computed by buildSummary — for each domain the top-10-by-
    confidence query, of whose formatted "field: value (confidence)" parts
    only the first FIVE are kept, joined by "; " and prefixed with the
    domain's label ("Identity: ", "Goals: ", ...), empty domains
    contributing no segment, segments joined by " | " — is returned and
    written back to the cache with TTL 3600 seconds. -/
theorem fetch_knowledge_summary_two_tier (env : KSEnv) (uid : String) :
    (∀ s, env.cacheGet = .ok (some s) → s ≠ "" →
      fetch_knowledge_summary env uid = ⟨s, none, false⟩) ∧
    ((env.cacheGet = .ok none ∨ env.cacheGet = .ok (some "")) →
      env.sessionOpen = .ok () →
      fetch_knowledge_summary env uid =
        ⟨buildSummary env uid, some (buildSummary env uid, 3600), true⟩) := by
  constructor
  · intro s hs hne
    unfold fetch_knowledge_summary
    rw [hs]
    simp [hne]
  · rintro (hc | hc) hso <;>
      (unfold fetch_knowledge_summary; rw [hc, hso]) <;> simp

/-- A knowledge-summary environment with a populated cache and a non-empty
    store, whose rows must not be consulted on a cache hit. -/
def ksEnvHit : KSEnv :=
  ⟨.ok (some "Identity: name: Simon (0.90)"), .ok (),
   fun _ => [⟨"1", "name", "Simon", 9/10, "onboarding", some 5⟩], fun _ => false⟩

theorem fetch_knowledge_summary_two_tier_witness :
    fetch_knowledge_summary ksEnvHit "1" =
      ⟨"Identity: name: Simon (0.90)", none, false⟩ :=
  (fetch_knowledge_summary_two_tier ksEnvHit "1").1
    "Identity: name: Simon (0.90)" rfl (by decide)

/-- An episodic environment that is fully configured and healthy. -/
def epEnvOn : EpisodicEnv := ⟨true, some "key", .ok (some [1]), .ok []⟩

/-- Claim C8 counterexample: the similarity search is issued with the
    constant namespace "default" for every user — _fetch_episodic never
    passes the user id to search_memories, so the search is not scoped to
    the user's namespace: two distinct users produce the identical call. -/
theorem fetch_episodic_namespace_cex :
    (fetch_episodic epEnvOn "alice" (some "hello") 5).searchCall =
      some ⟨5, "default"⟩ ∧
    (fetch_episodic epEnvOn "bob" (some "hello") 5).searchCall =
      some ⟨5, "default"⟩ ∧
    fetch_episodic epEnvOn "alice" (some "hello") 5 =
      fetch_episodic epEnvOn "bob" (some "hello") 5 :=
  ⟨rfl, rfl, rfl⟩

/-- Claim C8 (amended): episodic retrieval returns [] without invoking the
    embedding provider whenever the vector index is unconfigured or the
    query is absent/empty; a failed or falsy embedding yields [] with no
    search and no propagated error; when a search does run it is top-k
    (default 5) in the fixed namespace "default" shared by all users, and a
    raising search is caught to []. -/
theorem fetch_episodic_behavior (env : EpisodicEnv) (uid : String)
    (query : Option String) :
    ((env.pineconeConfigured = false ∨ query = none ∨ query = some "") →
      fetch_episodic env uid query 5 = ⟨[], false, none⟩) ∧
    (embed_text env = none →
      (fetch_episodic env uid query 5).hits = [] ∧
      (fetch_episodic env uid query 5).searchCall = none) ∧
    (∀ call, (fetch_episodic env uid query 5).searchCall = some call →
      call = ⟨5, "default"⟩) ∧
    (∀ e, env.searchRes = .error e → (fetch_episodic env uid query 5).hits = []) := by
  refine ⟨?_, ?_, ?_, ?_⟩
  · intro h
    unfold fetch_episodic
    rw [if_pos h]
  · intro h
    unfold fetch_episodic
    by_cases hs : env.pineconeConfigured = false ∨ query = none ∨ query = some ""
    · rw [if_pos hs]
      exact ⟨rfl, rfl⟩
    · rw [if_neg hs, h]
      exact ⟨rfl, rfl⟩
  · intro call hc
    unfold fetch_episodic at hc
    by_cases hs : env.pineconeConfigured = false ∨ query = none ∨ query = some ""
    · rw [if_pos hs] at hc
      simp at hc
    · rw [if_neg hs] at hc
      cases hemb : embed_text env with
      | none =>
        rw [hemb] at hc
        simp at hc
      | some v =>
        cases v with
        | nil =>
          rw [hemb] at hc
          simp at hc
        | cons x xs =>
          rw [hemb] at hc
          cases hsr : env.searchRes with
          | error e2 =>
            rw [hsr] at hc
            simp only [Option.some.injEq] at hc
            exact hc.symm
          | ok hits =>
            rw [hsr] at hc
            simp only [Option.some.injEq] at hc
            exact hc.symm
  · intro e he
    unfold fetch_episodic
    by_cases hs : env.pineconeConfigured = false ∨ query = none ∨ query = some ""
    · rw [if_pos hs]
    · rw [if_neg hs]
      cases hemb : embed_text env with
      | none => rfl
      | some v =>
        cases v with
        | nil => rfl
        | cons x xs => rw [he]

theorem fetch_episodic_behavior_witness :
    fetch_episodic epEnvOff "1" none 5 = ⟨[], false, none⟩ :=
  (fetch_episodic_behavior epEnvOff "1" none).1 (Or.inr (Or.inl rfl))

lemma take_append_take (A B : List α) (n : ℕ) :
    (A ++ B.take n).take n = (A ++ B).take n := by
  rw [List.take_append_eq_append_take, List.take_append_eq_append_take,
      List.take_take]
  have hmin : (n - A.length) ⊓ n = n - A.length := min_eq_left (Nat.sub_le n A.length)
  rw [hmin]

lemma add_message_foldl (ms l : List α) (hl : l.length ≤ 20) :
    ms.foldl (fun acc m => add_message m acc) l = (ms.reverse ++ l).take 20 := by
  induction ms generalizing l with
  | nil =>
    simp [List.take_of_length_le hl]
  | cons m ms ih =>
    rw [List.foldl_cons]
    have hlen : (add_message m l).length ≤ 20 := by
      unfold add_message
      exact List.length_take_le 20 (m :: l)
    rw [ih (add_message m l) hlen]
    show (ms.reverse ++ (m :: l).take 20).take 20 = ((m :: ms).reverse ++ l).take 20
    rw [take_append_take, List.reverse_cons, List.append_assoc]
    rfl

/-- Claim C10: the per-user history is bounded and ordered. After any
    sequence of add_message calls from an empty list, the stored list is the
    20 most recent messages newest first; through get_messages(limit = 20)
    and _fetch_working_memory, the messages field of the working-memory
    layer returned by build_context therefore holds at most 20 entries,
    newest first. -/
theorem working_memory_bounded (ms : List String) (benv : BuildEnv)
    (uid : String) (query : Option String) (stv : Option String)
    (h1 : benv.wm.getMessages =
      .ok (get_messages 20 (ms.foldl (fun acc m => add_message m acc) [])))
    (h2 : benv.wm.getUserState = .ok stv) :
    ms.foldl (fun acc m => add_message m acc) [] = ms.reverse.take 20 ∧
    (build_context benv uid query).working_memory.messages = ms.reverse.take 20 ∧
    (build_context benv uid query).working_memory.messages.length ≤ 20 := by
  have hfold : ms.foldl (fun acc m => add_message m acc) [] = ms.reverse.take 20 := by
    have h := add_message_foldl ms [] (by simp)
    simpa using h
  have hmsg : (build_context benv uid query).working_memory.messages =
      ms.reverse.take 20 := by
    show (fetch_working_memory benv.wm).messages = ms.reverse.take 20
    unfold fetch_working_memory
    rw [h1, h2]
    show get_messages 20 (ms.foldl (fun acc m => add_message m acc) []) =
      ms.reverse.take 20
    rw [hfold]
    unfold get_messages
    rw [List.take_take]
    simp
  refine ⟨hfold, hmsg, ?_⟩
  rw [hmsg]
  exact List.length_take_le 20 _

/-- A working-memory environment holding the history produced by 25
    successive add_message calls. -/
def wmEnvW : WMEnv :=
  ⟨.ok (get_messages 20 ((List.replicate 25 "m").foldl
      (fun acc m => add_message m acc) [])), .ok none⟩

/-- A build environment wired to wmEnvW. -/
def benvW : BuildEnv := ⟨⟨.ok none⟩, ksEnvOk, wmEnvW, epEnvOff⟩

theorem working_memory_bounded_witness :
    (build_context benvW "1" none).working_memory.messages =
      (List.replicate 25 "m").reverse.take 20 ∧
    (build_context benvW "1" none).working_memory.messages.length ≤ 20 := by
  have h := working_memory_bounded (List.replicate 25 "m") benvW "1" none none rfl rfl
  exact ⟨h.2.1, h.2.2⟩

/- ===================================================================
   Part 3: rule-based fact extraction
   (src/backend/app/core/fact_extractor.py, _rule_based_extract, 28-69)

   The seven fact patterns are Python regexes compiled with re.I and
   searched with pattern.search(sentence). They use only these constructs:
   a leading word boundary, case-insensitive literals, alternations of
   literals, an optional alternation, the lazy capture (?P<g>.+?) (any
   character except newline), and the terminator (?:\.|$) where $ matches
   at end of string or just before a single trailing newline. The matcher
   below implements exactly these constructs over List Char with Python's
   backtracking order (alternatives left to right, the optional group
   preferring presence, the lazy capture preferring the shortest
   extension, search trying start positions left to right). Every pattern
   starts with \b followed by a word character ("I" or "My"), so the word
   boundary holds exactly when the preceding character is absent or not a
   word character; the search loop implements it that way.
   =================================================================== -/

/-- Captured groups of one match attempt: (group number, captured text). -/
abbrev Caps := List (ℕ × List Char)

/-- Token alphabet of the seven patterns. -/
inductive RTok
  | lit (s : List Char)
  | alt (ss : List (List Char))
  | opt (ss : List (List Char))
  | cap (g : ℕ)
  | dotOrEnd
deriving DecidableEq, Repr

/-- Case-insensitive literal prefix match (re.I); returns the remainder. -/
def matchLit : List Char → List Char → Option (List Char)
  | [], cs => some cs
  | _ :: _, [] => none
  | p :: ps, c :: cs => if p.toLower = c.toLower then matchLit ps cs else none

/-- Python's $ (no re.M): end of input, or just before one trailing newline. -/
def atEnd : List Char → Bool
  | [] => true
  | [c] => c == '\n'
  | _ => false

/-- Word characters for \b. -/
def isWordChar (c : Char) : Bool := c.isAlphanum || c == '_'

/-- Match a token list against the input, returning the captures of the
    first (leftmost-preferring) successful alternative, lazy captures
    shortest first; the pattern may stop anywhere (search semantics). -/
def matchToks : List RTok → List Char → Caps → Option Caps
  | [], _, caps => some caps
  | .lit p :: ts, cs, caps =>
    (matchLit p cs).bind (fun rest => matchToks ts rest caps)
  | .alt ss :: ts, cs, caps =>
    ss.findSome? (fun p => (matchLit p cs).bind (fun rest => matchToks ts rest caps))
  | .opt ss :: ts, cs, caps =>
    match ss.findSome? (fun p => (matchLit p cs).bind (fun rest => matchToks ts rest caps)) with
    | some r => some r
    | none => matchToks ts cs caps
  | .cap g :: ts, cs, caps =>
    (List.range cs.length).findSome? (fun k =>
      if (cs.take (k + 1)).contains '\n' then none
      else matchToks ts (cs.drop (k + 1)) (caps ++ [(g, cs.take (k + 1))]))
  | .dotOrEnd :: ts, cs, caps =>
    match cs with
    | '.' :: rest =>
      match matchToks ts rest caps with
      | some r => some r
      | none => if atEnd cs then matchToks ts cs caps else none
    | _ => if atEnd cs then matchToks ts cs caps else none

/-- pattern.search: try each start position left to right; the \b that
    every pattern begins with holds iff the preceding character is absent
    or not a word character (the first pattern character is always a word
    character). -/
def searchAux (toks : List RTok) (prev : Option Char) (cs : List Char) : Option Caps :=
  let ok := match prev with
    | none => true
    | some c => !(isWordChar c)
  match (if ok then matchToks toks cs [] else none) with
  | some caps => some caps
  | none =>
    match cs with
    | [] => none
    | c :: rest => searchAux toks (some c) rest

/-- pattern.search from the start of the sentence. -/
def searchPat (toks : List RTok) (cs : List Char) : Option Caps :=
  searchAux toks none cs

/-- The apostrophe character (codepoint 39). -/
def apos : Char := Char.ofNat 39

/-- Regex (fact_extractor.py line 43):
    I(?:'m| am) (?:from |in |based in )?(?P<object>.+?)(?:\.|$)  — lives_in. -/
def patLivesIn : List RTok :=
  [.lit "I".data, .alt [[apos, 'm'], " am".data], .lit " ".data,
   .opt ["from ".data, "in ".data, "based in ".data], .cap 1, .dotOrEnd]

/-- Regex (line 44): I(?:'m| am) (?:a |an )?(?P<object>.+?)(?:\.|$) — identity. -/
def patIdentity : List RTok :=
  [.lit "I".data, .alt [[apos, 'm'], " am".data], .lit " ".data,
   .opt ["a ".data, "an ".data], .cap 1, .dotOrEnd]

/-- Regex (line 45): I (?:like|love|enjoy) (?P<object>.+?)(?:\.|$) — likes. -/
def patLikes : List RTok :=
  [.lit "I ".data, .alt ["like".data, "love".data, "enjoy".data], .lit " ".data,
   .cap 1, .dotOrEnd]

/-- Regex (line 46): I (?:don't |do not )?(?:like|love|enjoy) (?P<object>.+?)(?:\.|$)
    — dislikes. -/
def patDislikes : List RTok :=
  [.lit "I ".data, .opt ["don".data ++ [apos] ++ "t ".data, "do not ".data],
   .alt ["like".data, "love".data, "enjoy".data], .lit " ".data, .cap 1, .dotOrEnd]

/-- Regex (line 47): My (?:favorite|favourite) (?P<object>.+?) is (?P<object2>.+?)(?:\.|$)
    — preference. -/
def patPreference : List RTok :=
  [.lit "My ".data, .alt ["favorite".data, "favourite".data], .lit " ".data,
   .cap 1, .lit " is ".data, .cap 2, .dotOrEnd]

/-- Regex (line 48): I met (?P<object>.+?)(?:\.|$) — met_person. -/
def patMet : List RTok := [.lit "I met ".data, .cap 1, .dotOrEnd]

/-- Regex (line 49): I (?:bought|purchased) (?P<object>.+?)(?:\.|$) — purchased. -/
def patPurchased : List RTok :=
  [.lit "I ".data, .alt ["bought".data, "purchased".data], .lit " ".data,
   .cap 1, .dotOrEnd]

/-- fact_patterns (fact_extractor.py lines 41-50), in source order. -/
def fact_patterns : List (List RTok × String) :=
  [(patLivesIn, "lives_in"), (patIdentity, "identity"), (patLikes, "likes"),
   (patDislikes, "dislikes"), (patPreference, "preference"),
   (patMet, "met_person"), (patPurchased, "purchased")]

/-- Sentence terminators of the split regex [.!?]. -/
def isSentEnd (c : Char) : Bool := c == '.' || c == '!' || c == '?'

/-- ASCII whitespace matched by Python's \s (and stripped by str.strip()). -/
def isPySpace (c : Char) : Bool :=
  c == ' ' || c == '\t' || c == '\n' || c == '\r' ||
  c == Char.ofNat 11 || c == Char.ofNat 12

/-- re.split(r"(?<=[.!?])\s+", text) (fact_extractor.py line 39): split
    after a sentence terminator followed by a maximal whitespace run, the
    run itself removed. -/
def splitAux : ℕ → List Char → List Char → List (List Char)
  | _, [], acc => [acc.reverse]
  | fuel + 1, c :: rest, acc =>
    if isSentEnd c then
      let ws := rest.takeWhile isPySpace
      if ws.isEmpty then splitAux fuel rest (c :: acc)
      else (acc.reverse ++ [c]) :: splitAux fuel (rest.drop ws.length) []
    else splitAux fuel rest (c :: acc)
  | 0, cs, acc => [acc.reverse ++ cs]

/-- The sentence list of a transcript. splitAux is fueled only to make the
    recursion structural: every step consumes at least one character, so
    cs.length fuel always suffices and the zero-fuel fallback is
    unreachable (splitAux_fuel below proves the fuel does not matter). -/
def splitSentences (cs : List Char) : List (List Char) := splitAux cs.length cs []

lemma splitAux_fuel (f1 : ℕ) : ∀ (f2 : ℕ) (cs acc : List Char),
    cs.length ≤ f1 → cs.length ≤ f2 → splitAux f1 cs acc = splitAux f2 cs acc := by
  induction f1 with
  | zero =>
    intro f2 cs acc h1 h2
    cases cs with
    | nil =>
      cases f2 <;> rfl
    | cons c rest => simp at h1
  | succ f1 ih =>
    intro f2 cs acc h1 h2
    cases cs with
    | nil => cases f2 <;> rfl
    | cons c rest =>
      cases f2 with
      | zero => simp at h2
      | succ f2 =>
        simp only [List.length_cons, Nat.add_le_add_iff_right] at h1 h2
        show (if isSentEnd c then
                let ws := rest.takeWhile isPySpace
                if ws.isEmpty then splitAux f1 rest (c :: acc)
                else (acc.reverse ++ [c]) :: splitAux f1 (rest.drop ws.length) []
              else splitAux f1 rest (c :: acc)) =
             (if isSentEnd c then
                let ws := rest.takeWhile isPySpace
                if ws.isEmpty then splitAux f2 rest (c :: acc)
                else (acc.reverse ++ [c]) :: splitAux f2 (rest.drop ws.length) []
              else splitAux f2 rest (c :: acc))
        by_cases hse : isSentEnd c = true
        · rw [if_pos hse, if_pos hse]
          by_cases hws : (rest.takeWhile isPySpace).isEmpty = true
          · simp only [hws, if_true]
            exact ih f2 rest (c :: acc) h1 h2
          · rw [if_neg hws, if_neg hws]
            have hd : (rest.drop (rest.takeWhile isPySpace).length).length ≤ rest.length := by
              rw [List.length_drop]
              omega
            rw [ih f2 (rest.drop (rest.takeWhile isPySpace).length) []
                (le_trans hd h1) (le_trans hd h2)]
        · rw [if_neg hse, if_neg hse]
          exact ih f2 rest (c :: acc) h1 h2

/-- str.strip(). -/
def stripWs (cs : List Char) : List Char :=
  ((cs.dropWhile isPySpace).reverse.dropWhile isPySpace).reverse

/-- str.strip('.'). -/
def stripDots (cs : List Char) : List Char :=
  ((cs.dropWhile (· == '.')).reverse.dropWhile (· == '.')).reverse

/-- An extracted fact (fact_extractor.py lines 60-66). -/
structure Fact where
  subject : String
  predicate : String
  object : String
  source : String
  confidence : ℚ
deriving DecidableEq, Repr

/-- m.groupdict().get(name): first capture recorded for the group. -/
def capLookup (caps : Caps) (g : ℕ) : Option (List Char) :=
  (caps.find? (fun p => p.fst == g)).map (fun p => p.snd)

/-- obj = m.groupdict().get("object") or m.groupdict().get("object2")
    (fact_extractor.py line 57); an empty group-1 capture is falsy. -/
def objOf (caps : Caps) : Option (List Char) :=
  match capLookup caps 1 with
  | some o => if o.isEmpty then capLookup caps 2 else some o
  | none => capLookup caps 2

/-- The loop body over fact_patterns for one sentence (fact_extractor.py
    lines 52-67): the first pattern that matches with a truthy object
    yields one fact — subject "user", the pattern's predicate, the object
    stripped (strip, strip('.'), strip), source "rule_fallback",
    confidence 0.4 — and the break stops the scan. -/
def sentencePatFact (s : List Char) (pp : List RTok × String) : Option Fact :=
  (searchPat pp.1 s).bind (fun caps =>
    (objOf caps).bind (fun obj =>
      if obj.isEmpty then none
      else some { subject := "user", predicate := pp.2,
                  object := (stripWs (stripDots (stripWs obj))).asString,
                  source := "rule_fallback", confidence := 2/5 }))

/-- The first pattern producing a fact wins (the break). -/
def sentenceFact (s : List Char) : Option Fact :=
  fact_patterns.findSome? (sentencePatFact s)

/-- _rule_based_extract (fact_extractor.py lines 28-69): strip the
    transcript, return [] when empty, split into sentences, strip each,
    and collect at most one fact per sentence. A total function: the
    fallback never throws. -/
def rule_based_extract (transcript : String) : List Fact :=
  let text := stripWs transcript.data
  if text.isEmpty then []
  else
    (splitSentences text).flatMap (fun sRaw =>
      match sentenceFact (stripWs sRaw) with
      | some f => [f]
      | none => [])

/- ===================================================================
   Theorems: rule-based fact extraction (claim C9)
   =================================================================== -/

/-- Claim C9 counterexample: on the transcript built exactly as onboarding
    builds it — " \n".join(["I love hiking", "I work as an engineer"])
    (onboarding.py line 96) — rule-based extraction produces NO facts at
    all, so in particular no fact with predicate "likes" and no fact with
    predicate "identity". The sentence splitter finds no ".", "!" or "?",
    so the whole text is one sentence; the likes pattern's lazy object
    cannot cross the newline to reach "(?:\.|$)", so "I love hiking" never
    completes a match; and "I work as an engineer" matches no pattern (the
    identity pattern requires "I'm" or "I am"). Even under a plain
    space-join the extraction yields a single likes fact with the run-on
    object and still no identity fact. -/
theorem rule_based_extract_cex :
    rule_based_extract
      (String.intercalate " \n" ["I love hiking", "I work as an engineer"]) = [] ∧
    rule_based_extract "I love hiking I work as an engineer" =
      [⟨"user", "likes", "hiking I work as an engineer", "rule_fallback", 2/5⟩] :=
  ⟨rfl, rfl⟩

lemma sentencePatFact_fields (s : List Char) (pp : List RTok × String) (f : Fact)
    (h : sentencePatFact s pp = some f) :
    f.confidence = 2/5 ∧ f.subject = "user" ∧ f.source = "rule_fallback" := by
  unfold sentencePatFact at h
  rcases Option.bind_eq_some.mp h with ⟨caps, hcaps, hrest⟩
  rcases Option.bind_eq_some.mp hrest with ⟨obj, hobj, hmk⟩
  by_cases he : obj.isEmpty
  · rw [if_pos he] at hmk
    cases hmk
  · rw [if_neg he] at hmk
    simp only [Option.some.injEq] at hmk
    subst hmk
    exact ⟨rfl, rfl, rfl⟩

lemma sentenceFactAux_fields (pats : List (List RTok × String)) (s : List Char) (f : Fact)
    (h : pats.findSome? (sentencePatFact s) = some f) :
    f.confidence = 2/5 ∧ f.subject = "user" ∧ f.source = "rule_fallback" := by
  induction pats with
  | nil => simp at h
  | cons pp pats ih =>
    rw [List.findSome?_cons] at h
    cases hm : sentencePatFact s pp with
    | none =>
      rw [hm] at h
      exact ih h
    | some f0 =>
      rw [hm] at h
      simp at h
      subst h
      exact sentencePatFact_fields s pp f0 hm

lemma sentenceFact_fields (s : List Char) (f : Fact) (h : sentenceFact s = some f) :
    f.confidence = 2/5 ∧ f.subject = "user" ∧ f.source = "rule_fallback" :=
  sentenceFactAux_fields fact_patterns s f h

/-- Claim C9 (amended): on the onboarding transcript the fallback extracts
    no facts (hence no likes/hiking fact and no identity/engineer fact);
    the fallback is a total function — it never throws, returning [] when
    nothing matches — and every fact it ever produces has subject "user",
    source "rule_fallback" and confidence 0.4. -/
theorem rule_based_extract_amended :
    rule_based_extract
      (String.intercalate " \n" ["I love hiking", "I work as an engineer"]) = [] ∧
    (∀ t : String, ∀ f ∈ rule_based_extract t,
      f.confidence = 2/5 ∧ f.subject = "user" ∧ f.source = "rule_fallback") := by
  refine ⟨rfl, ?_⟩
  intro t f hf
  unfold rule_based_extract at hf
  by_cases he : (stripWs t.data).isEmpty
  · rw [if_pos he] at hf
    cases hf
  · rw [if_neg he] at hf
    rcases List.mem_flatMap.mp hf with ⟨sRaw, _, hmem⟩
    cases hsf : sentenceFact (stripWs sRaw) with
    | none =>
      rw [hsf] at hmem
      cases hmem
    | some f0 =>
      rw [hsf] at hmem
      rw [List.mem_singleton] at hmem
      subst hmem
      exact sentenceFact_fields (stripWs sRaw) f hsf

theorem rule_based_extract_amended_witness :
    (⟨"user", "likes", "hiking", "rule_fallback", 2/5⟩ : Fact).confidence = 2/5 ∧
    (⟨"user", "likes", "hiking", "rule_fallback", 2/5⟩ : Fact).subject = "user" ∧
    (⟨"user", "likes", "hiking", "rule_fallback", 2/5⟩ : Fact).source = "rule_fallback" :=
  rule_based_extract_amended.2 "I love hiking."
    ⟨"user", "likes", "hiking", "rule_fallback", 2/5⟩
    (by
      rw [show rule_based_extract "I love hiking." =
          [⟨"user", "likes", "hiking", "rule_fallback", 2/5⟩] from rfl]
      exact List.mem_singleton.mpr rfl)

end MobileApp
